import Mathlib

/-!
Verification development for the lava_torrent BitTorrent v1 metainfo library.

The definitions below are a shallow embedding of `src/torrent/v1/mod.rs` and
`src/torrent/v1/read.rs`.  Machine integers are modelled as `Int` (for Rust
`i64`) and `Nat` (for Rust `usize`, pointer-sized and taken to be 64 bits),
with explicit range checks where the source performs checked arithmetic.
Rust `HashMap<String, BencodeElem>` values are modelled as association lists
with unique keys; insertion overwrites, removal deletes, and iteration order
is irrelevant to every property stated here (the bencode encoder re-sorts
keys before emission).
-/

set_option maxRecDepth 100000

/-- A bencode element, following the data model in the source
(`BencodeElem` of the bencode module; the module itself is not under `src/`,
its shape is fixed by §3.1 of the spec and by every use in `mod.rs` and
`read.rs`): integer (signed 64-bit), UTF-8 text, raw bytes, list,
dictionary with text keys. -/
inductive BencodeElem : Type
  | integer (n : Int)
  | string (s : String)
  | bytes (b : List Nat)
  | list (es : List BencodeElem)
  | dictionary (d : List (String × BencodeElem))

/-- The error taxonomy of the library (`LavaTorrentError`), restricted to the
kinds reachable from the embedded code paths. -/
inductive Err : Type
  | MalformedBencode (reason : String)
  | MalformedTorrent (reason : String)
  | InvalidArgument (reason : String)
deriving DecidableEq, Repr

/-- True exactly when a result is a `MalformedTorrent` error. -/
def isMalformedT {α : Type} : Except Err α → Bool
  | .error (.MalformedTorrent _) => true
  | _ => false

/-- Model of `HashMap<String, BencodeElem>`: an association list. -/
abbrev Dict := List (String × BencodeElem)

/-- Lookup of a key (model of `HashMap::get`). -/
def dictLookup (k : String) : Dict → Option BencodeElem
  | [] => none
  | p :: rest => if p.1 = k then some p.2 else dictLookup k rest

/-- Removal of a key (the dictionary part of `HashMap::remove`). -/
def dictErase (k : String) : Dict → Dict
  | [] => []
  | p :: rest => if p.1 = k then dictErase k rest else p :: dictErase k rest

/-- Insertion with overwrite (model of `HashMap::insert`). -/
def dictInsert (k : String) (v : BencodeElem) (d : Dict) : Dict :=
  (k, v) :: dictErase k d

/-- Model of `HashMap::extend`: insert every entry of `e` into `d`,
overwriting existing keys. -/
def dictExtend (d : Dict) (e : Dict) : Dict :=
  e.foldl (fun acc p => dictInsert p.1 p.2 acc) d

/-- The keys of a dictionary. -/
def dictKeys (d : Dict) : List String := d.map Prod.fst

/-- UTF-8 encoding of a single code point, as byte values. -/
def utf8EncodeCharNat (n : Nat) : List Nat :=
  if n < 128 then [n]
  else if n < 2048 then [192 + n / 64, 128 + n % 64]
  else if n < 65536 then [224 + n / 4096, 128 + n / 64 % 64, 128 + n % 64]
  else [240 + n / 262144, 128 + n / 4096 % 64, 128 + n / 64 % 64, 128 + n % 64]

/-- The raw UTF-8 bytes of a text value. -/
def utf8Bytes (s : String) : List Nat :=
  (s.data.map (fun c => utf8EncodeCharNat c.toNat)).flatten

/-- Byte-wise lexicographic order on byte sequences, used by the encoder to
sort dictionary keys. -/
def bytesLe : List Nat → List Nat → Bool
  | [], _ => true
  | _ :: _, [] => false
  | a :: as, b :: bs => if a < b then true else if b < a then false else bytesLe as bs

/-- Insert one (key bytes, payload) pair into a list sorted by key bytes. -/
def insertEntry (p : List Nat × List Nat) : List (List Nat × List Nat) → List (List Nat × List Nat)
  | [] => [p]
  | q :: rest => if bytesLe p.1 q.1 then p :: q :: rest else q :: insertEntry p rest

/-- Sort dictionary entries ascending by the raw UTF-8 bytes of the key. -/
def sortEntries (l : List (List Nat × List Nat)) : List (List Nat × List Nat) :=
  l.foldr insertEntry []

/-- Bencode byte-string framing: decimal length, a colon, the payload. -/
def encodePayload (b : List Nat) : List Nat :=
  utf8Bytes (toString b.length) ++ [58] ++ b

mutual

/-- Modelled from the spec: the bencode encoder (`BencodeElem::encode`) is not
under `src/`.  Per §4.2, integers are emitted as `i<decimal>e` with no leading
zeros and a sign only when negative; text and bytes as `<len>:<payload>` with
no normalization; lists as `l...e` preserving order; dictionaries as `d...e`
with entries sorted ascending by the raw UTF-8 bytes of the key. -/
def encodeElem : BencodeElem → List Nat
  | .integer n => [105] ++ utf8Bytes (toString n) ++ [101]
  | .string s => encodePayload (utf8Bytes s)
  | .bytes b => encodePayload b
  | .list es => [108] ++ encodeItems es ++ [101]
  | .dictionary d => [100] ++ ((sortEntries (encodeEntries d)).map Prod.snd).flatten ++ [101]

/-- Encode the elements of a list in order, concatenated. -/
def encodeItems : List BencodeElem → List Nat
  | [] => []
  | e :: rest => encodeElem e ++ encodeItems rest

/-- Pair each dictionary entry with its key bytes and its full encoding
(encoded key followed by encoded value). -/
def encodeEntries : List (String × BencodeElem) → List (List Nat × List Nat)
  | [] => []
  | p :: rest =>
      (utf8Bytes p.1, encodePayload (utf8Bytes p.1) ++ encodeElem p.2) :: encodeEntries rest

end

/-- Fueled worker for `chunksOf`; the fuel is an upper bound on the number of
chunks, so recursion is structural and the function evaluates by reduction. -/
def chunksOfAux (n : Nat) : Nat → List Nat → List (List Nat)
  | 0, _ => []
  | _, [] => []
  | fuel + 1, x :: rest => (x :: rest.take (n - 1)) :: chunksOfAux n fuel (rest.drop (n - 1))

/-- Split a byte sequence into consecutive chunks of `n` bytes (the final
chunk may be shorter); model of `slice::chunks`. -/
def chunksOf (n : Nat) (l : List Nat) : List (List Nat) :=
  chunksOfAux n l.length l

/-- Left-rotation of a 32-bit word by `k` bits (`0 < k < 32`, word `< 2 ^ 32`). -/
def rotl (k w : Nat) : Nat := (w * 2 ^ k + w / 2 ^ (32 - k)) % 2 ^ 32

/-- The SHA-1 round function (FIPS 180-1), by round index. -/
def sha1F (i b c d : Nat) : Nat :=
  if i < 20 then Nat.lor (Nat.land b c) (Nat.land (Nat.xor b (2 ^ 32 - 1)) d)
  else if i < 40 then Nat.xor b (Nat.xor c d)
  else if i < 60 then Nat.lor (Nat.lor (Nat.land b c) (Nat.land b d)) (Nat.land c d)
  else Nat.xor b (Nat.xor c d)

/-- The SHA-1 round constants, by round index. -/
def sha1K (i : Nat) : Nat :=
  if i < 20 then 0x5A827999
  else if i < 40 then 0x6ED9EBA1
  else if i < 60 then 0x8F1BBCDC
  else 0xCA62C1D6

/-- Running state of the SHA-1 compression function. -/
structure Sha1State : Type where
  a : Nat
  b : Nat
  c : Nat
  d : Nat
  e : Nat
deriving DecidableEq, Repr

/-- One SHA-1 round: consume the indexed schedule word `iw`. -/
def sha1Round (st : Sha1State) (iw : Nat × Nat) : Sha1State :=
  let t := (rotl 5 st.a + sha1F iw.1 st.b st.c st.d + st.e + sha1K iw.1 + iw.2) % 2 ^ 32
  ⟨t, st.a, rotl 30 st.b, st.c, st.d⟩

/-- Extend the 16 block words to the 80-word message schedule; `n` counts the
words still to be produced. -/
def sha1Schedule (ws : List Nat) : Nat → List Nat
  | 0 => ws
  | m + 1 =>
      let i := ws.length
      let nw := rotl 1 (Nat.xor (ws.getD (i - 3) 0)
        (Nat.xor (ws.getD (i - 8) 0) (Nat.xor (ws.getD (i - 14) 0) (ws.getD (i - 16) 0))))
      sha1Schedule (ws ++ [nw]) m

/-- Big-endian 32-bit words from a 64-byte block. -/
def blockWords (block : List Nat) : List Nat :=
  (chunksOf 4 block).map (fun c =>
    c.getD 0 0 * 2 ^ 24 + c.getD 1 0 * 2 ^ 16 + c.getD 2 0 * 2 ^ 8 + c.getD 3 0)

/-- SHA-1 compression of one 64-byte block into the running state. -/
def sha1Block (h : Sha1State) (block : List Nat) : Sha1State :=
  let ws := sha1Schedule (blockWords block) 64
  let st := ((List.range 80).zip ws).foldl sha1Round h
  ⟨(h.a + st.a) % 2 ^ 32, (h.b + st.b) % 2 ^ 32, (h.c + st.c) % 2 ^ 32,
    (h.d + st.d) % 2 ^ 32, (h.e + st.e) % 2 ^ 32⟩

/-- Big-endian bytes of a 64-bit value. -/
def be64 (n : Nat) : List Nat :=
  [n / 2 ^ 56 % 256, n / 2 ^ 48 % 256, n / 2 ^ 40 % 256, n / 2 ^ 32 % 256,
    n / 2 ^ 24 % 256, n / 2 ^ 16 % 256, n / 2 ^ 8 % 256, n % 256]

/-- SHA-1 padding: append 0x80, zero bytes to 56 mod 64, then the bit length
as 8 big-endian bytes. -/
def sha1Pad (m : List Nat) : List Nat :=
  m ++ [128] ++ List.replicate ((119 - m.length % 64) % 64) 0 ++ be64 (8 * m.length)

/-- The digest bytes of a final SHA-1 state: five big-endian 32-bit words. -/
def digestBytes (st : Sha1State) : List Nat :=
  [st.a / 2 ^ 24 % 256, st.a / 2 ^ 16 % 256, st.a / 2 ^ 8 % 256, st.a % 256,
    st.b / 2 ^ 24 % 256, st.b / 2 ^ 16 % 256, st.b / 2 ^ 8 % 256, st.b % 256,
    st.c / 2 ^ 24 % 256, st.c / 2 ^ 16 % 256, st.c / 2 ^ 8 % 256, st.c % 256,
    st.d / 2 ^ 24 % 256, st.d / 2 ^ 16 % 256, st.d / 2 ^ 8 % 256, st.d % 256,
    st.e / 2 ^ 24 % 256, st.e / 2 ^ 16 % 256, st.e / 2 ^ 8 % 256, st.e % 256]

/-- Modelled from the spec: the SHA-1 primitive is an external collaborator
(§1 treats it as a byte-in/20-byte-out oracle, not part of this repository).
It is implemented here per FIPS 180-1 so that concrete info hashes can be
evaluated. -/
def sha1 (msg : List Nat) : List Nat :=
  digestBytes ((chunksOf 64 (sha1Pad msg)).foldl sha1Block
    ⟨0x67452301, 0xEFCDAB89, 0x98BADCFE, 0x10325476, 0xC3D2E1F0⟩)

/-- The sixteen lowercase hexadecimal digits. -/
def hexChars : List Char :=
  (List.range 16).map (fun n => Char.ofNat (if n < 10 then 48 + n else 87 + n))

/-- The lowercase hexadecimal digit of `n % 16`. -/
def hexDigit (n : Nat) : Char := hexChars.getD (n % 16) '0'

/-- Two lowercase hexadecimal digits per byte, in order (the behavior of the
`LowerHex` formatting `format!` applies to a SHA-1 digest). -/
def hexOfBytesList : List Nat → List Char
  | [] => []
  | b :: rest => hexDigit (b / 16) :: hexDigit b :: hexOfBytesList rest

/-- Lowercase hexadecimal text of a byte sequence. -/
def hexOfBytes (b : List Nat) : String := String.mk (hexOfBytesList b)

/-- A file contained in a torrent (`File` in `mod.rs`); `path` is the list of
relative path components of the `PathBuf` built by `extract_file_path`. -/
structure File : Type where
  length : Int
  path : List String
  extraFields : Option Dict

/-- Everything found in a torrent file (`Torrent` in `mod.rs`). -/
structure Torrent : Type where
  announce : Option String
  announceList : Option (List (List String))
  length : Int
  files : Option (List File)
  name : String
  pieceLength : Int
  pieces : List (List Nat)
  extraFields : Option Dict
  extraInfoFields : Option Dict

/-- Modelled from the spec: `File::into_bencode_elem` lives in `write.rs`,
which is not under `src/`.  Per §4.3/§4.4 a file dictionary carries `length`
(integer), `path` (list of text components, in order), with the file's extra
fields merged in. -/
def File.intoBencodeElem (f : File) : BencodeElem :=
  .dictionary (dictExtend
    (dictInsert "path" (.list (f.path.map BencodeElem.string))
      (dictInsert "length" (.integer f.length) []))
    (f.extraFields.getD []))

/-- The `info` dictionary built by `Torrent::construct_info` in `mod.rs`:
`files` (converted in order) when present, otherwise `length`; then `name`,
`piece length`, `pieces` (all pieces concatenated flat); finally every entry
of `extra_info_fields` is inserted (overwriting on key collision, the
semantics of `HashMap::extend`). -/
def infoDict (t : Torrent) : Dict :=
  dictExtend
    (dictInsert "pieces" (.bytes t.pieces.flatten)
      (dictInsert "piece length" (.integer t.pieceLength)
        (dictInsert "name" (.string t.name)
          (match t.files with
           | some fs => dictInsert "files" (.list (fs.map File.intoBencodeElem)) []
           | none => dictInsert "length" (.integer t.length) []))))
    (t.extraInfoFields.getD [])

/-- `Torrent::construct_info`: the `info` dictionary as a bencode element. -/
def constructInfo (t : Torrent) : BencodeElem := .dictionary (infoDict t)

/-- `Torrent::info_hash_bytes`: SHA-1 digest of the encoded `info`
dictionary, as raw bytes; recomputed from the fields on each use. -/
def infoHashBytes (t : Torrent) : List Nat := sha1 (encodeElem (constructInfo t))

/-- `Torrent::info_hash`: the same digest as lowercase hexadecimal text. -/
def infoHash (t : Torrent) : String := hexOfBytes (infoHashBytes t)

/-- The escape set `MAGNET_COMPONENT` of `mod.rs`: the ASCII controls
(`CONTROLS`: bytes below 0x20 and byte 0x7F) plus the ampersand and the plus
sign. -/
def inMagnetSet (c : Char) : Bool :=
  c.toNat < 32 || c.toNat == 127 || c == '&' || c == '+'

/-- The sixteen uppercase hexadecimal digits (percent-encoding emits
uppercase escapes). -/
def hexUpperChars : List Char :=
  (List.range 16).map (fun n => Char.ofNat (if n < 10 then 48 + n else 55 + n))

/-- The uppercase hexadecimal digit of `n % 16`. -/
def hexUpperDigit (n : Nat) : Char := hexUpperChars.getD (n % 16) '0'

/-- Percent-escape of one character against `MAGNET_COMPONENT`; characters in
the set (all ASCII, one UTF-8 byte) become a percent escape, others pass
through.  Bytes of multi-byte characters are never in the set, so working per
character agrees with the byte-level `utf8_percent_encode`. -/
def pctEncodeChar (c : Char) : List Char :=
  if inMagnetSet c then [ '%', hexUpperDigit (c.toNat / 16), hexUpperDigit c.toNat ]
  else [c]

/-- Replacement of literal spaces by plus signs (`str::replace` in
`encode_component`). -/
def spaceToPlus (c : Char) : Char := if c = ' ' then '+' else c

/-- `encode_component` in `Torrent::magnet_link`: percent-encode against
`MAGNET_COMPONENT`, then replace every space with a plus sign. -/
def encodeComponent (s : String) : String :=
  String.mk (((s.data.map pctEncodeChar).flatten).map spaceToPlus)

/-- The tracker portion of the magnet link: every URL of every tier of
`announce_list` when present (ignoring `announce`), else `announce` alone,
else empty. -/
def trString (t : Torrent) : String :=
  match t.announceList with
  | some list =>
      String.join (list.map (fun tier =>
        String.join (tier.map (fun url => "&tr=" ++ encodeComponent url))))
  | none =>
      match t.announce with
      | some a => "&tr=" ++ encodeComponent a
      | none => ""

/-- Collect the text of every element of a `url-list` list, failing on the
first non-text element (the `collect::<Result<...>>` in `magnet_link`). -/
def collectStrings : List BencodeElem → Except Err (List String)
  | [] => .ok []
  | e :: rest =>
      match e with
      | .string u => (collectStrings rest).map (fun us => u :: us)
      | _ => .error (.MalformedTorrent "url-list is a list but contains a non-string element.")

/-- The web-seed portion of the magnet link, from `extra_fields` key
`url-list`: text gives one entry, a list of text gives one entry per element,
anything else is a `MalformedTorrent` error. -/
def wsResult (t : Torrent) : Except Err String :=
  match t.extraFields.bind (dictLookup "url-list") with
  | some (.string seed) => .ok ("&ws=" ++ encodeComponent seed)
  | some (.list seeds) =>
      (collectStrings seeds).map (fun us =>
        String.join (us.map (fun url => "&ws=" ++ encodeComponent url)))
  | some _ => .error (.MalformedTorrent "url-list is neither a string nor a list.")
  | none => .ok ""

/-- `Torrent::magnet_link`: the full magnet URI, or the error from the
web-seed extraction. -/
def magnetLink (t : Torrent) : Except Err String :=
  match wsResult t with
  | .error e => .error e
  | .ok ws =>
      .ok ("magnet:?xt=urn:btih:" ++ infoHash t ++ "&dn=" ++ t.name ++ trString t ++ ws)

/-- The fixture torrent of the `info_hash_ok` / `magnet_link_ok` tests. -/
def sampleTorrent : Torrent :=
  { announce := some "url", announceList := none, length := 4, files := none,
    name := "sample", pieceLength := 2, pieces := [[1, 2], [3, 4]],
    extraFields := none, extraInfoFields := none }

/-- Shared body of `File::extract_file_extra_fields` and
`Torrent::extract_extra_fields` (textually identical in the source): the
leftover dictionary, or nothing when it is empty. -/
def extractExtraFields (d : Dict) : Option Dict :=
  if d.isEmpty then none else some d

/-- `File::extract_file_length`: the `length` entry, an integer that must be
nonnegative; the entry is removed from the dictionary. -/
def extractFileLength (d : Dict) : Except Err (Int × Dict) :=
  match dictLookup "length" d with
  | some (.integer len) =>
      if 0 ≤ len then .ok (len, dictErase "length" d)
      else .error (.MalformedTorrent "length < 0.")
  | some _ => .error (.MalformedTorrent "length does not map to an integer.")
  | none => .error (.MalformedTorrent "length does not exist.")

/-- The component loop of `File::extract_file_path`: every element must be
text and must differ from the dot and dot-dot components; components are
pushed onto the path in order. -/
def buildPath : List BencodeElem → List String → Except Err (List String)
  | [], acc => .ok acc
  | c :: rest, acc =>
      match c with
      | .string comp =>
          if comp = "." ∨ comp = ".." then
            .error (.MalformedTorrent "path contains a dot or dot-dot component.")
          else buildPath rest (acc ++ [comp])
      | _ => .error (.MalformedTorrent "path contains a non-string element.")

/-- `File::extract_file_path`: the `path` entry, a non-empty list of valid
text components; the entry is removed from the dictionary. -/
def extractFilePath (d : Dict) : Except Err (List String × Dict) :=
  match dictLookup "path" d with
  | some (.list l) =>
      if l.isEmpty then .error (.MalformedTorrent "path maps to a 0-length list.")
      else (buildPath l []).map (fun p => (p, dictErase "path" d))
  | some _ => .error (.MalformedTorrent "path does not map to a list.")
  | none => .error (.MalformedTorrent "path does not exist.")

/-- `File::extract_file`: a file entry must be a dictionary; `length` and
`path` are extracted in that order and the leftover keys become the file's
extra fields. -/
def extractFile (elem : BencodeElem) : Except Err File :=
  match elem with
  | .dictionary d =>
      match extractFileLength d with
      | .error e => .error e
      | .ok (len, d1) =>
          match extractFilePath d1 with
          | .error e => .error e
          | .ok (p, d2) => .ok ⟨len, p, extractExtraFields d2⟩
  | _ => .error (.MalformedTorrent "files contains a non-dictionary element.")

/-- The element loop of `Torrent::extract_files`: extract each file in
order, stopping at the first error. -/
def extractFilesLoop : List BencodeElem → Except Err (List File)
  | [] => .ok []
  | e :: rest =>
      match extractFile e with
      | .error err => .error err
      | .ok f => (extractFilesLoop rest).map (fun fs => f :: fs)

/-- `Torrent::extract_files`: `files`, when present, must map to a non-empty
list; the entry is removed from the dictionary. -/
def extractFiles (d : Dict) : Except Err (Option (List File) × Dict) :=
  match dictLookup "files" d with
  | some (.list l) =>
      if l.isEmpty then .error (.MalformedTorrent "files maps to an empty list.")
      else (extractFilesLoop l).map (fun fs => (some fs, dictErase "files" d))
  | some _ => .error (.MalformedTorrent "files does not map to a list.")
  | none => .ok (none, dictErase "files" d)

/-- Signed 64-bit checked addition (`i64::checked_add`). -/
def i64CheckedAdd (a b : Int) : Option Int :=
  if -(2 ^ 63) ≤ a + b ∧ a + b < 2 ^ 63 then some (a + b) else none

/-- The summation loop of `Torrent::extract_length`: checked sum of the file
lengths, overflow in signed 64 bits being a malformed-torrent error. -/
def sumFileLengths : Int → List File → Except Err Int
  | acc, [] => .ok acc
  | acc, f :: rest =>
      match i64CheckedAdd acc f.length with
      | some s => sumFileLengths s rest
      | none => .error (.MalformedTorrent "Torrent length overflowed in i64.")

/-- `Torrent::extract_length`: `length` must not coexist with `files`; when
`length` is absent the length is the checked sum of the file lengths; when
neither exists the torrent is malformed. -/
def extractLength (d : Dict) (files : Option (List File)) : Except Err (Int × Dict) :=
  match dictLookup "length" d with
  | some (.integer len) =>
      if files.isSome then .error (.MalformedTorrent "Both length and files exist.")
      else .ok (len, dictErase "length" d)
  | some _ => .error (.MalformedTorrent "length does not map to an integer.")
  | none =>
      match files with
      | some fs => (sumFileLengths 0 fs).map (fun s => (s, dictErase "length" d))
      | none => .error (.MalformedTorrent "Neither length nor files exists.")

/-- `Torrent::extract_name`: `name` must map to text. -/
def extractName (d : Dict) : Except Err (String × Dict) :=
  match dictLookup "name" d with
  | some (.string nm) => .ok (nm, dictErase "name" d)
  | some _ => .error (.MalformedTorrent "name does not map to a string.")
  | none => .error (.MalformedTorrent "name does not exist.")

/-- `Torrent::extract_piece_length`: `piece length` must map to a positive
integer. -/
def extractPieceLength (d : Dict) : Except Err (Int × Dict) :=
  match dictLookup "piece length" d with
  | some (.integer len) =>
      if 0 < len then .ok (len, dictErase "piece length" d)
      else .error (.MalformedTorrent "piece length <= 0.")
  | some _ => .error (.MalformedTorrent "piece length does not map to an integer.")
  | none => .error (.MalformedTorrent "piece length does not exist.")

/-- `Torrent::extract_pieces`: `pieces` must map to a non-empty byte sequence
whose length is a multiple of 20; on success it is split into consecutive
20-byte chunks in order. -/
def extractPieces (d : Dict) : Except Err (List (List Nat) × Dict) :=
  match dictLookup "pieces" d with
  | some (.bytes b) =>
      if b.isEmpty then .error (.MalformedTorrent "pieces maps to an empty sequence.")
      else if b.length % 20 = 0 then .ok (chunksOf 20 b, dictErase "pieces" d)
      else .error (.MalformedTorrent "pieces length is not a multiple of 20.")
  | some _ => .error (.MalformedTorrent "pieces does not map to a sequence of bytes.")
  | none => .error (.MalformedTorrent "pieces does not exist.")

/-- `Torrent::extract_announce`: optional, but must be text when present;
the entry is removed from the dictionary (removal of an absent key is a
no-op, so the erasure is performed unconditionally here). -/
def extractAnnounce (d : Dict) : Except Err (Option String × Dict) :=
  match dictLookup "announce" d with
  | some (.string url) => .ok (some url, dictErase "announce" d)
  | some _ => .error (.MalformedTorrent "announce does not map to a string.")
  | none => .ok (none, dictErase "announce" d)

/-- The URL loop of `Torrent::extract_announce_list_tier`. -/
def tierUrls : List BencodeElem → Except Err (List String)
  | [] => .ok []
  | u :: rest =>
      match u with
      | .string url => (tierUrls rest).map (fun us => url :: us)
      | _ => .error (.MalformedTorrent "A tier within announce-list contains a non-string element.")

/-- `Torrent::extract_announce_list_tier`: a tier must be a list of text. -/
def extractAnnounceListTier (elem : BencodeElem) : Except Err (List String) :=
  match elem with
  | .list urls => tierUrls urls
  | _ => .error (.MalformedTorrent "announce-list contains a non-list element.")

/-- The tier loop of `Torrent::extract_announce_list`. -/
def announceTiers : List BencodeElem → Except Err (List (List String))
  | [] => .ok []
  | t :: rest =>
      match extractAnnounceListTier t with
      | .error e => .error e
      | .ok tier => (announceTiers rest).map (fun ts => tier :: ts)

/-- `Torrent::extract_announce_list`: optional, but must be a list of tiers
when present. -/
def extractAnnounceList (d : Dict) : Except Err (Option (List (List String)) × Dict) :=
  match dictLookup "announce-list" d with
  | some (.list tiers) =>
      (announceTiers tiers).map (fun l => (some l, dictErase "announce-list" d))
  | some _ => .error (.MalformedTorrent "announce-list does not map to a list.")
  | none => .ok (none, dictErase "announce-list" d)

/-- The dictionary body of `Torrent::from_parsed`: extract `announce` and
`announce-list`, remove `info`, turn the leftover top-level keys into
`extra_fields`; inside `info` extract `files`, `length`, `name`,
`piece length` and `pieces` in that order, the leftover keys becoming
`extra_info_fields`. -/
def fromParsedDict (d : Dict) : Except Err Torrent :=
  match extractAnnounce d with
  | .error e => .error e
  | .ok (announce, d1) =>
      match extractAnnounceList d1 with
      | .error e => .error e
      | .ok (announceList, d2) =>
          match dictLookup "info" d2, extractExtraFields (dictErase "info" d2) with
          | some (.dictionary info), extraFields =>
              match extractFiles info with
              | .error e => .error e
              | .ok (files, i1) =>
                  match extractLength i1 files with
                  | .error e => .error e
                  | .ok (length, i2) =>
                      match extractName i2 with
                      | .error e => .error e
                      | .ok (nm, i3) =>
                          match extractPieceLength i3 with
                          | .error e => .error e
                          | .ok (pl, i4) =>
                              match extractPieces i4 with
                              | .error e => .error e
                              | .ok (ps, i5) =>
                                  .ok { announce := announce, announceList := announceList,
                                        length := length, files := files, name := nm,
                                        pieceLength := pl, pieces := ps,
                                        extraFields := extraFields,
                                        extraInfoFields := extractExtraFields i5 }
          | some _, _ => .error (.MalformedTorrent "info is not a dictionary.")
          | none, _ => .error (.MalformedTorrent "info does not exist.")

/-- `Torrent::from_parsed`: exactly one top-level element, which must be a
dictionary. -/
def fromParsed (parsed : List BencodeElem) : Except Err Torrent :=
  match parsed with
  | [e] =>
      match e with
      | .dictionary d => fromParsedDict d
      | _ => .error (.MalformedTorrent "Torrent top-level element is not a dictionary.")
  | _ => .error (.MalformedTorrent "Torrent should contain 1 and only 1 top-level element.")

/-- Modelled from the spec: `util::i64_to_usize` is not under `src/`.  The
pointer-sized unsigned type is taken to be 64 bits; a negative value does not
convert, and §4.3 folds every post-validation failure into a
malformed-torrent error. -/
def i64ToUsize (n : Int) : Except Err Nat :=
  if 0 ≤ n then .ok n.toNat else .error (.MalformedTorrent "does not fit in usize.")

/-- Pointer-sized unsigned checked multiplication (`usize::checked_mul`,
64-bit platform). -/
def usizeCheckedMul (a b : Nat) : Option Nat :=
  if a * b < 2 ^ 64 then some (a * b) else none

/-- `Torrent::validate`: the total piece length (checked product of
`piece_length` and the piece count, in the pointer-sized unsigned type) must
not overflow and must be at least the torrent's length, and the length must
be positive. -/
def validate (t : Torrent) : Except Err Torrent :=
  match i64ToUsize t.pieceLength with
  | .error e => .error e
  | .ok pl =>
      match usizeCheckedMul pl t.pieces.length with
      | none => .error (.MalformedTorrent "Torrent total piece length overflowed in usize.")
      | some total =>
          match i64ToUsize t.length with
          | .error e => .error e
          | .ok len =>
              if total < len then
                .error (.MalformedTorrent "Total piece length < torrent length.")
              else if t.length ≤ 0 then .error (.MalformedTorrent "length <= 0.")
              else .ok t

/-- The escaping rule in the words of the contract: characters in the escape
set (the ASCII controls plus the ampersand and the plus sign) become a
percent escape, a literal space becomes a plus sign, and every other
character passes through unchanged.  Stated separately from
`encodeComponent` (which first percent-encodes the whole text and only then
replaces spaces, as `encode_component` in `mod.rs` does) so that the two can
be compared. -/
def encodeComponentSpec (s : String) : String :=
  String.mk ((s.data.map (fun c =>
    if c.toNat < 32 || c.toNat == 127 || c == '&' || c == '+' then
      [ '%', hexUpperDigit (c.toNat / 16), hexUpperDigit c.toNat ]
    else if c = ' ' then [ '+' ] else [c])).flatten)

/-- The fixture torrent with an extra info entry whose key collides with the
canonical `name` key. -/
def collidingTorrent : Torrent :=
  { sampleTorrent with extraInfoFields := some [("name", .integer 0)] }

/-- The fixture torrent with an extra info entry overriding `name` with the
text `other`. -/
def overrideTorrent : Torrent :=
  { sampleTorrent with extraInfoFields := some [("name", .string "other")] }

/-- The fixture torrent renamed to `other` directly through its `name`
field. -/
def renamedTorrent : Torrent :=
  { sampleTorrent with name := "other" }

/-- The fixture torrent with the benign extra info entry of the
`construct_info_ok` test. -/
def extraFieldTorrent : Torrent :=
  { sampleTorrent with extraInfoFields := some [("key", .string "val")] }

theorem dictLookup_erase_ne (k j : String) (d : Dict) (h : j ≠ k) :
    dictLookup k (dictErase j d) = dictLookup k d := by
  induction d with
  | nil => rfl
  | cons p rest ih =>
      by_cases hp : p.1 = j
      · have hpk : ¬ p.1 = k := by rw [hp]; exact h
        simp [dictErase, dictLookup, hp, hpk, h, ih]
      · simp [dictErase, dictLookup, hp, ih]

theorem dictLookup_erase_self (k : String) (d : Dict) :
    dictLookup k (dictErase k d) = none := by
  induction d with
  | nil => rfl
  | cons p rest ih =>
      by_cases hp : p.1 = k
      · simp [dictErase, hp, ih]
      · simp [dictErase, dictLookup, hp, ih]

theorem dictLookup_insert_self (k : String) (v : BencodeElem) (d : Dict) :
    dictLookup k (dictInsert k v d) = some v := by
  simp [dictInsert, dictLookup]

theorem dictLookup_insert_ne (k j : String) (v : BencodeElem) (d : Dict) (h : j ≠ k) :
    dictLookup k (dictInsert j v d) = dictLookup k d := by
  simp [dictInsert, dictLookup, h, dictLookup_erase_ne k j d h]

theorem dictLookup_extend_not_mem (k : String) (d e : Dict) (h : k ∉ dictKeys e) :
    dictLookup k (dictExtend d e) = dictLookup k d := by
  induction e generalizing d with
  | nil => rfl
  | cons p rest ih =>
      have hk : p.1 ≠ k := by
        intro hc
        exact h (by simp [dictKeys, hc])
      have hrest : k ∉ dictKeys rest := by
        intro hc
        exact h (by simp [dictKeys] at hc ⊢; exact Or.inr hc)
      calc dictLookup k (dictExtend (dictInsert p.1 p.2 d) rest)
          = dictLookup k (dictInsert p.1 p.2 d) := ih (dictInsert p.1 p.2 d) hrest
        _ = dictLookup k d := dictLookup_insert_ne k p.1 p.2 d hk

theorem dictLookup_extend_mem (k : String) (v : BencodeElem) (d e : Dict)
    (hnd : (dictKeys e).Nodup) (h : dictLookup k e = some v) :
    dictLookup k (dictExtend d e) = some v := by
  induction e generalizing d with
  | nil => simp [dictLookup] at h
  | cons p rest ih =>
      simp only [dictKeys, List.map_cons, List.nodup_cons] at hnd
      by_cases hk : p.1 = k
      · have hv : p.2 = v := by
          simpa [dictLookup, hk] using h
        have hnm : k ∉ dictKeys rest := hk ▸ hnd.1
        calc dictLookup k (dictExtend (dictInsert p.1 p.2 d) rest)
            = dictLookup k (dictInsert p.1 p.2 d) :=
              dictLookup_extend_not_mem k _ rest hnm
          _ = some v := by rw [hk, hv]; exact dictLookup_insert_self k v d
      · have hrest : dictLookup k rest = some v := by
          simpa [dictLookup, hk] using h
        exact ih (dictInsert p.1 p.2 d) hnd.2 hrest

theorem chunksOfAux_flatten (n : Nat) (fuel : Nat) (l : List Nat) (h : l.length ≤ fuel) :
    (chunksOfAux n fuel l).flatten = l := by
  induction fuel generalizing l with
  | zero =>
      cases l with
      | nil => rfl
      | cons x rest => simp at h
  | succ m ih =>
      cases l with
      | nil => rfl
      | cons x rest =>
          have hlen : (rest.drop (n - 1)).length ≤ m := by
            simp only [List.length_drop]
            simp only [List.length_cons] at h
            omega
          simp [chunksOfAux, ih (rest.drop (n - 1)) hlen, List.take_append_drop]

theorem chunksOf_flatten (n : Nat) (l : List Nat) : (chunksOf n l).flatten = l :=
  chunksOfAux_flatten n l.length l (Nat.le_refl _)

theorem chunksOfAux_length_20 (fuel : Nat) (l : List Nat) (hf : l.length ≤ fuel)
    (hd : l.length % 20 = 0) (p : List Nat) (hp : p ∈ chunksOfAux 20 fuel l) :
    p.length = 20 := by
  induction fuel generalizing l with
  | zero =>
      cases l with
      | nil => simp [chunksOfAux] at hp
      | cons x rest => simp at hf
  | succ m ih =>
      cases l with
      | nil => simp [chunksOfAux] at hp
      | cons x rest =>
          simp only [chunksOfAux, List.mem_cons] at hp
          have hge : 19 ≤ rest.length := by
            simp only [List.length_cons] at hd
            omega
          rcases hp with hp | hp
          · subst hp
            simp only [List.length_cons, List.length_take]
            omega
          · have hf2 : (rest.drop 19).length ≤ m := by
              simp only [List.length_drop]
              simp only [List.length_cons] at hf
              omega
            have hd2 : (rest.drop 19).length % 20 = 0 := by
              simp only [List.length_drop]
              simp only [List.length_cons] at hd
              omega
            exact ih (rest.drop 19) hf2 hd2 hp

theorem chunksOf_length_20 (l : List Nat) (hd : l.length % 20 = 0) (p : List Nat)
    (hp : p ∈ chunksOf 20 l) : p.length = 20 :=
  chunksOfAux_length_20 l.length l (Nat.le_refl _) hd p hp

theorem hexDigit_mem (n : Nat) : hexDigit n ∈ hexChars := by
  have h : n % 16 < 16 := Nat.mod_lt _ (by norm_num)
  unfold hexDigit
  have hall : ∀ m, m < 16 → hexChars.getD m '0' ∈ hexChars := by decide
  exact hall (n % 16) h

theorem hexOfBytesList_mem (bs : List Nat) (c : Char) (hc : c ∈ hexOfBytesList bs) :
    c ∈ hexChars := by
  induction bs with
  | nil => simp [hexOfBytesList] at hc
  | cons b rest ih =>
      simp only [hexOfBytesList, List.mem_cons] at hc
      rcases hc with hc | hc | hc
      · exact hc ▸ hexDigit_mem _
      · exact hc ▸ hexDigit_mem _
      · exact ih hc

theorem buildPath_ok (comps : List String) (acc : List String)
    (h : ∀ c ∈ comps, c ≠ "." ∧ c ≠ "..") :
    buildPath (comps.map BencodeElem.string) acc = .ok (acc ++ comps) := by
  induction comps generalizing acc with
  | nil => simp [buildPath]
  | cons c rest ih =>
      have hc := h c (by simp)
      have hcond : ¬ (c = "." ∨ c = "..") := by
        rintro (h1 | h2)
        · exact hc.1 h1
        · exact hc.2 h2
      simp only [List.map_cons, buildPath, hcond, if_false]
      rw [ih (acc ++ [c]) (fun x hx => h x (by simp [hx]))]
      simp

theorem buildPath_bad (l : List BencodeElem) (acc : List String)
    (h : ∃ e ∈ l, (∀ s, e ≠ .string s) ∨ e = .string "." ∨ e = .string "..") :
    isMalformedT (buildPath l acc) = true := by
  induction l generalizing acc with
  | nil =>
      rcases h with ⟨e, he, _⟩
      simp at he
  | cons c rest ih =>
      cases c with
      | string comp =>
          by_cases hdot : comp = "." ∨ comp = ".."
          · simp [buildPath, hdot, isMalformedT]
          · rcases h with ⟨e, he, hbad⟩
            rcases List.mem_cons.mp he with rfl | hrest
            · rcases hbad with h1 | h2 | h3
              · exact absurd rfl (h1 comp)
              · exact absurd (by injection h2) (fun hx => hdot (Or.inl hx))
              · exact absurd (by injection h3) (fun hx => hdot (Or.inr hx))
            · simp only [buildPath, hdot, if_false]
              exact ih (acc ++ [comp]) ⟨e, hrest, hbad⟩
      | integer n => simp [buildPath, isMalformedT]
      | bytes b => simp [buildPath, isMalformedT]
      | list es => simp [buildPath, isMalformedT]
      | dictionary d2 => simp [buildPath, isMalformedT]

theorem extractFilesLoop_cons_ok (e : BencodeElem) (rest : List BencodeElem) (f : File)
    (h : extractFile e = .ok f) :
    extractFilesLoop (e :: rest) = (extractFilesLoop rest).map (fun fs => f :: fs) := by
  simp [extractFilesLoop, h]

theorem extractFilesLoop_cons_err (e : BencodeElem) (rest : List BencodeElem)
    (h : isMalformedT (extractFile e) = true) :
    isMalformedT (extractFilesLoop (e :: rest)) = true := by
  cases hf : extractFile e with
  | error err =>
      rw [hf] at h
      cases err with
      | MalformedTorrent r => simp only [extractFilesLoop, hf]; rfl
      | MalformedBencode r => exact Bool.noConfusion h
      | InvalidArgument r => exact Bool.noConfusion h
  | ok f =>
      rw [hf] at h
      exact Bool.noConfusion h

theorem sumFileLengths_ok_value (fs : List File) (acc s : Int)
    (h : sumFileLengths acc fs = .ok s) : s = acc + (fs.map File.length).sum := by
  induction fs generalizing acc with
  | nil =>
      simp only [sumFileLengths] at h
      injection h with h
      simp [h.symm]
  | cons f rest ih =>
      simp only [sumFileLengths] at h
      cases hadd : i64CheckedAdd acc f.length with
      | none =>
          rw [hadd] at h
          simp at h
      | some t =>
          rw [hadd] at h
          have ht : t = acc + f.length := by
            unfold i64CheckedAdd at hadd
            split at hadd
            · injection hadd with hadd
              exact hadd.symm
            · simp at hadd
          have := ih t h
          rw [this, ht]
          simp [List.sum_cons]
          ring

theorem collectStrings_map (us : List String) :
    collectStrings (us.map BencodeElem.string) = .ok us := by
  induction us with
  | nil => rfl
  | cons u rest ih => simp [collectStrings, ih, Except.map]

theorem collectStrings_bad (l : List BencodeElem) (e : BencodeElem) (he : e ∈ l)
    (hns : ∀ s, e ≠ .string s) :
    collectStrings l =
      .error (.MalformedTorrent "url-list is a list but contains a non-string element.") := by
  induction l with
  | nil => simp at he
  | cons c rest ih =>
      cases c with
      | string u =>
          rcases List.mem_cons.mp he with rfl | hrest
          · exact absurd rfl (hns u)
          · simp [collectStrings, ih hrest, Except.map]
      | integer n => simp [collectStrings]
      | bytes b => simp [collectStrings]
      | list es => simp [collectStrings]
      | dictionary d2 => simp [collectStrings]

theorem hexUpperDigit_ne_space (n : Nat) : hexUpperDigit n ≠ ' ' := by
  have h : n % 16 < 16 := Nat.mod_lt _ (by norm_num)
  unfold hexUpperDigit
  have hall : ∀ m, m < 16 → hexUpperChars.getD m '0' ≠ ' ' := by decide
  exact hall (n % 16) h

theorem pct_map_spaceToPlus (c : Char) :
    (pctEncodeChar c).map spaceToPlus =
      (if c.toNat < 32 || c.toNat == 127 || c == '&' || c == '+' then
        [ '%', hexUpperDigit (c.toNat / 16), hexUpperDigit c.toNat ]
      else if c = ' ' then [ '+' ] else [c]) := by
  unfold pctEncodeChar inMagnetSet
  by_cases h : (c.toNat < 32 || c.toNat == 127 || c == '&' || c == '+') = true
  · rw [if_pos h, if_pos h]
    have h0 : ('%' : Char) ≠ ' ' := by decide
    have h1 := hexUpperDigit_ne_space (c.toNat / 16)
    have h2 := hexUpperDigit_ne_space c.toNat
    simp [spaceToPlus, h0, h1, h2]
  · rw [if_neg h, if_neg h]
    by_cases hsp : c = ' '
    · simp [spaceToPlus, hsp]
    · simp [spaceToPlus, hsp]

theorem encodeComponent_eq_spec (s : String) : encodeComponent s = encodeComponentSpec s := by
  unfold encodeComponent encodeComponentSpec
  congr 1
  induction s.data with
  | nil => rfl
  | cons c rest ih =>
      simp only [List.map_cons, List.flatten_cons, List.map_append, ih]
      congr 1
      exact pct_map_spaceToPlus c

/-- C1: `info_hash` is the lowercase 40-character hexadecimal text of the
SHA-1 digest of the bencode encoding of `construct_info`, `info_hash_bytes`
is the same digest as raw 20 bytes, both are recomputed from the torrent's
fields on every call (nothing is cached in the `Torrent` record), and the
fixture torrent hashes to `074f42efaf8267f137f114f722d4e7d1dcbfbda5`. -/
theorem claim_C1 :
    (∀ t, infoHashBytes t = sha1 (encodeElem (constructInfo t))) ∧
    (∀ t, infoHash t = hexOfBytes (infoHashBytes t)) ∧
    (∀ t, (infoHashBytes t).length = 20) ∧
    (∀ t, (infoHash t).length = 40) ∧
    (∀ t, ∀ c ∈ (infoHash t).data, c ∈ hexChars) ∧
    infoHash sampleTorrent = "074f42efaf8267f137f114f722d4e7d1dcbfbda5" ∧
    infoHashBytes sampleTorrent =
      [0x07, 0x4f, 0x42, 0xef, 0xaf, 0x82, 0x67, 0xf1, 0x37, 0xf1,
        0x14, 0xf7, 0x22, 0xd4, 0xe7, 0xd1, 0xdc, 0xbf, 0xbd, 0xa5] := by
  refine ⟨fun t => rfl, fun t => rfl, fun t => rfl, fun t => rfl, ?_, by decide, by decide⟩
  intro t c hc
  exact hexOfBytesList_mem (infoHashBytes t) c hc

theorem claim_C1_witness :
    ('0' ∈ (infoHash sampleTorrent).data) ∧ '0' ∈ hexChars :=
  ⟨by decide, claim_C1.2.2.2.2.1 sampleTorrent '0' (by decide)⟩

/-- C2 counterexample: on a torrent whose `extra_info_fields` maps `name` to
the integer 0, `construct_info` does not contain `name` mapped to the
torrent's own name; the merged extra entry overwrote it. -/
theorem claim_C2_counterexample :
    dictLookup "name" (infoDict collidingTorrent) = some (.integer 0) ∧
    dictLookup "name" (infoDict collidingTorrent) ≠
      some (.string collidingTorrent.name) := by
  constructor
  · rfl
  · intro h
    rw [show dictLookup "name" (infoDict collidingTorrent) = some (.integer 0) from rfl] at h
    exact BencodeElem.noConfusion (Option.some.inj h)

/-- C2 (amended): for every torrent whose `extra_info_fields` keys are
unique and collide with none of the canonical info keys, `construct_info`
contains `name`, `piece length` and `pieces` with the torrent's own values,
contains `length` exactly when `files` is absent and `files` (converted in
order) otherwise, and contains every entry of `extra_info_fields`; when an
extra key does collide, the merge - performed last - overwrites the
canonical entry. -/
theorem claim_C2 (t : Torrent)
    (hnd : (dictKeys (t.extraInfoFields.getD [])).Nodup)
    (hdisj : ∀ k ∈ dictKeys (t.extraInfoFields.getD []),
      k ≠ "name" ∧ k ≠ "piece length" ∧ k ≠ "pieces" ∧ k ≠ "length" ∧ k ≠ "files") :
    dictLookup "name" (infoDict t) = some (.string t.name) ∧
    dictLookup "piece length" (infoDict t) = some (.integer t.pieceLength) ∧
    dictLookup "pieces" (infoDict t) = some (.bytes t.pieces.flatten) ∧
    (t.files = none →
      dictLookup "length" (infoDict t) = some (.integer t.length) ∧
      dictLookup "files" (infoDict t) = none) ∧
    (∀ fs, t.files = some fs →
      dictLookup "files" (infoDict t) = some (.list (fs.map File.intoBencodeElem)) ∧
      dictLookup "length" (infoDict t) = none) ∧
    (∀ k v, dictLookup k (t.extraInfoFields.getD []) = some v →
      dictLookup k (infoDict t) = some v) := by
  have hname : "name" ∉ dictKeys (t.extraInfoFields.getD []) :=
    fun hm => (hdisj _ hm).1 rfl
  have hpl : "piece length" ∉ dictKeys (t.extraInfoFields.getD []) :=
    fun hm => (hdisj _ hm).2.1 rfl
  have hpc : "pieces" ∉ dictKeys (t.extraInfoFields.getD []) :=
    fun hm => (hdisj _ hm).2.2.1 rfl
  have hlen : "length" ∉ dictKeys (t.extraInfoFields.getD []) :=
    fun hm => (hdisj _ hm).2.2.2.1 rfl
  have hfil : "files" ∉ dictKeys (t.extraInfoFields.getD []) :=
    fun hm => (hdisj _ hm).2.2.2.2 rfl
  refine ⟨?_, ?_, ?_, ?_, ?_, ?_⟩
  · simp only [infoDict]
    rw [dictLookup_extend_not_mem _ _ _ hname,
      dictLookup_insert_ne _ _ _ _ (by decide),
      dictLookup_insert_ne _ _ _ _ (by decide), dictLookup_insert_self]
  · simp only [infoDict]
    rw [dictLookup_extend_not_mem _ _ _ hpl,
      dictLookup_insert_ne _ _ _ _ (by decide), dictLookup_insert_self]
  · simp only [infoDict]
    rw [dictLookup_extend_not_mem _ _ _ hpc, dictLookup_insert_self]
  · intro hf
    simp only [infoDict, hf]
    constructor
    · rw [dictLookup_extend_not_mem _ _ _ hlen,
        dictLookup_insert_ne _ _ _ _ (by decide),
        dictLookup_insert_ne _ _ _ _ (by decide),
        dictLookup_insert_ne _ _ _ _ (by decide), dictLookup_insert_self]
    · rw [dictLookup_extend_not_mem _ _ _ hfil,
        dictLookup_insert_ne _ _ _ _ (by decide),
        dictLookup_insert_ne _ _ _ _ (by decide),
        dictLookup_insert_ne _ _ _ _ (by decide),
        dictLookup_insert_ne _ _ _ _ (by decide)]
      rfl
  · intro fs hf
    simp only [infoDict, hf]
    constructor
    · rw [dictLookup_extend_not_mem _ _ _ hfil,
        dictLookup_insert_ne _ _ _ _ (by decide),
        dictLookup_insert_ne _ _ _ _ (by decide),
        dictLookup_insert_ne _ _ _ _ (by decide), dictLookup_insert_self]
    · rw [dictLookup_extend_not_mem _ _ _ hlen,
        dictLookup_insert_ne _ _ _ _ (by decide),
        dictLookup_insert_ne _ _ _ _ (by decide),
        dictLookup_insert_ne _ _ _ _ (by decide),
        dictLookup_insert_ne _ _ _ _ (by decide)]
      rfl
  · intro k v hv
    simp only [infoDict]
    exact dictLookup_extend_mem k v _ _ hnd hv

theorem claim_C2_witness :
    (dictKeys (extraFieldTorrent.extraInfoFields.getD [])).Nodup ∧
    dictLookup "name" (infoDict extraFieldTorrent) = some (.string "sample") ∧
    dictLookup "key" (infoDict extraFieldTorrent) = some (.string "val") := by
  refine ⟨by decide, ?_, ?_⟩
  · exact (claim_C2 extraFieldTorrent (by decide) (by decide)).1
  · exact (claim_C2 extraFieldTorrent (by decide) (by decide)).2.2.2.2.2 "key" _ rfl

/-- C10: entries of `extra_info_fields` are merged into the `info`
dictionary last with overwrite semantics, so an extra entry whose key equals
a canonical info key replaces the canonical entry, and the info hash follows
the extra value: overriding `name` through `extra_info_fields` hashes
identically to renaming the torrent itself, and differently from the
unmodified fixture. -/
theorem claim_C10 (t : Torrent) (extra : Dict) (h : t.extraInfoFields = some extra)
    (hnd : (dictKeys extra).Nodup) :
    (∀ k v, dictLookup k extra = some v → dictLookup k (infoDict t) = some v) ∧
    infoHash overrideTorrent = infoHash renamedTorrent ∧
    infoHash overrideTorrent ≠ infoHash sampleTorrent := by
  refine ⟨?_, by decide, by decide⟩
  intro k v hv
  simp only [infoDict, h, Option.getD_some]
  exact dictLookup_extend_mem k v _ extra hnd hv

theorem claim_C10_witness :
    collidingTorrent.extraInfoFields = some [("name", BencodeElem.integer 0)] ∧
    dictLookup "name" (infoDict collidingTorrent) = some (.integer 0) :=
  ⟨rfl, (claim_C10 collidingTorrent _ rfl (by decide)).1 "name" _ rfl⟩

/-- C7: with `announce_list` present, `magnet_link` emits one tracker entry
per URL in tier order then URL order and ignores `announce` entirely (the
link is the same as with `announce` cleared); with only `announce` present
it emits exactly one tracker entry; with neither it emits none; and the
tracker portion appears verbatim in the successful magnet link. -/
theorem claim_C7 (t : Torrent) :
    (∀ l, t.announceList = some l →
      trString t =
        String.join (l.map (fun tier =>
          String.join (tier.map (fun url => "&tr=" ++ encodeComponent url)))) ∧
      magnetLink t = magnetLink { t with announce := none }) ∧
    (∀ a, t.announceList = none → t.announce = some a →
      trString t = "&tr=" ++ encodeComponent a) ∧
    (t.announceList = none → t.announce = none → trString t = "") ∧
    (∀ w, wsResult t = .ok w →
      magnetLink t =
        .ok ("magnet:?xt=urn:btih:" ++ infoHash t ++ "&dn=" ++ t.name ++ trString t ++ w)) := by
  refine ⟨?_, ?_, ?_, ?_⟩
  · intro l hl
    constructor
    · simp [trString, hl]
    · have h2 : wsResult { t with announce := none } = wsResult t := rfl
      have h3 : trString { t with announce := none } = trString t := by
        simp [trString, hl]
      unfold magnetLink
      rw [h2, h3]
      cases hws : wsResult t with
      | error e => rfl
      | ok ws => rfl
  · intro a hl ha
    simp [trString, hl, ha]
  · intro hl ha
    simp [trString, hl, ha]
  · intro w hw
    simp [magnetLink, hw]

theorem claim_C7_witness :
    (sampleTorrent.announceList = none) ∧ (sampleTorrent.announce = some "url") ∧
    trString sampleTorrent = "&tr=" ++ encodeComponent "url" :=
  ⟨rfl, rfl, (claim_C7 sampleTorrent).2.1 "url" rfl rfl⟩

/-- C8: the `url-list` entry of `extra_fields` drives the web-seed portion:
text gives exactly one entry, a list of text gives one entry per element in
order, a list containing a non-text element or a value of any other type
makes `magnet_link` fail with `MalformedTorrent` (no link is produced), and
an absent entry gives no web-seed portion. -/
theorem claim_C8 (t : Torrent) :
    (∀ s, t.extraFields.bind (dictLookup "url-list") = some (.string s) →
      wsResult t = .ok ("&ws=" ++ encodeComponent s)) ∧
    (∀ us : List String,
      t.extraFields.bind (dictLookup "url-list") = some (.list (us.map BencodeElem.string)) →
      wsResult t = .ok (String.join (us.map (fun url => "&ws=" ++ encodeComponent url)))) ∧
    (∀ seeds e, t.extraFields.bind (dictLookup "url-list") = some (.list seeds) →
      e ∈ seeds → (∀ s, e ≠ .string s) →
      magnetLink t =
        .error (.MalformedTorrent "url-list is a list but contains a non-string element.")) ∧
    (∀ v, t.extraFields.bind (dictLookup "url-list") = some v →
      (∀ s, v ≠ .string s) → (∀ es, v ≠ .list es) →
      magnetLink t = .error (.MalformedTorrent "url-list is neither a string nor a list.")) ∧
    (t.extraFields.bind (dictLookup "url-list") = none → wsResult t = .ok "") := by
  refine ⟨?_, ?_, ?_, ?_, ?_⟩
  · intro s h
    simp [wsResult, h]
  · intro us h
    simp [wsResult, h, collectStrings_map, Except.map]
  · intro seeds e h he hns
    have hcs := collectStrings_bad seeds e he hns
    simp [magnetLink, wsResult, h, hcs, Except.map]
  · intro v h hns hnl
    cases v with
    | string s => exact absurd rfl (hns s)
    | list es => exact absurd rfl (hnl es)
    | integer n => simp [magnetLink, wsResult, h]
    | bytes b => simp [magnetLink, wsResult, h]
    | dictionary d2 => simp [magnetLink, wsResult, h]
  · intro h
    simp [wsResult, h]

theorem claim_C8_witness :
    (({ sampleTorrent with
        extraFields := some [("url-list", BencodeElem.string "u")] } : Torrent).extraFields.bind
      (dictLookup "url-list") = some (.string "u")) ∧
    wsResult { sampleTorrent with
        extraFields := some [("url-list", BencodeElem.string "u")] } =
      .ok ("&ws=" ++ encodeComponent "u") :=
  ⟨rfl, (claim_C8 _).1 "u" rfl⟩

/-- C9: tracker and web-seed values are escaped by percent-encoding exactly
the ASCII controls plus the ampersand and the plus sign, after which every
literal space becomes a plus sign (never a percent-20 escape); the dn value
is the torrent's name, emitted entirely unescaped in the link. -/
theorem claim_C9 :
    (∀ s, encodeComponent s = encodeComponentSpec s) ∧
    encodeComponent " " = "+" ∧
    encodeComponent "a b" = "a+b" ∧
    encodeComponent "&" = "%26" ∧
    encodeComponent "+" = "%2B" ∧
    (∀ t w, wsResult t = .ok w →
      magnetLink t =
        .ok ("magnet:?xt=urn:btih:" ++ infoHash t ++ "&dn=" ++ t.name ++ trString t ++ w)) := by
  refine ⟨encodeComponent_eq_spec, by decide, by decide, by decide, by decide, ?_⟩
  intro t w hw
  simp [magnetLink, hw]

theorem claim_C9_witness :
    wsResult sampleTorrent = .ok "" ∧
    magnetLink sampleTorrent =
      .ok ("magnet:?xt=urn:btih:" ++ infoHash sampleTorrent ++ "&dn=" ++
        sampleTorrent.name ++ trString sampleTorrent ++ "") :=
  ⟨rfl, claim_C9.2.2.2.2.2 sampleTorrent "" rfl⟩

/-- C3: in post-validation, the total piece length is the checked product of
`piece_length` and the piece count in the pointer-sized unsigned type, and
overflow is a `MalformedTorrent` error; a product strictly below the
torrent's length is a `MalformedTorrent` error; a length that is not
positive is a `MalformedTorrent` error; otherwise validation returns the
torrent unchanged. -/
theorem claim_C3 (t : Torrent) (hpl : 0 < t.pieceLength) :
    (2 ^ 64 ≤ t.pieceLength.toNat * t.pieces.length →
      validate t =
        .error (.MalformedTorrent "Torrent total piece length overflowed in usize.")) ∧
    (t.pieceLength.toNat * t.pieces.length < 2 ^ 64 →
      t.pieceLength.toNat * t.pieces.length < t.length.toNat →
      validate t = .error (.MalformedTorrent "Total piece length < torrent length.")) ∧
    (t.pieceLength.toNat * t.pieces.length < 2 ^ 64 → t.length ≤ 0 →
      isMalformedT (validate t) = true) ∧
    (t.pieceLength.toNat * t.pieces.length < 2 ^ 64 → 0 < t.length →
      t.length.toNat ≤ t.pieceLength.toNat * t.pieces.length →
      validate t = .ok t) := by
  have h0 : (0 : Int) ≤ t.pieceLength := le_of_lt hpl
  refine ⟨?_, ?_, ?_, ?_⟩
  · intro hov
    have hcond : ¬ (t.pieceLength.toNat * t.pieces.length < 2 ^ 64) := Nat.not_lt.mpr hov
    unfold validate i64ToUsize usizeCheckedMul
    rw [if_pos h0]
    dsimp only
    rw [if_neg hcond]
  · intro hlt hcmp
    have hlenpos : 0 ≤ t.length := by
      by_contra hneg
      push_neg at hneg
      have hz : t.length.toNat = 0 := Int.toNat_of_nonpos (le_of_lt hneg)
      omega
    unfold validate i64ToUsize usizeCheckedMul
    rw [if_pos h0]
    dsimp only
    rw [if_pos hlt]
    dsimp only
    rw [if_pos hlenpos]
    dsimp only
    rw [if_pos hcmp]
  · intro hlt hle
    by_cases hneg : 0 ≤ t.length
    · have hz : t.length = 0 := le_antisymm hle hneg
      have hv : validate t = .error (.MalformedTorrent "length <= 0.") := by
        unfold validate i64ToUsize usizeCheckedMul
        rw [if_pos h0]
        dsimp only
        rw [if_pos hlt]
        dsimp only
        rw [hz]
        rw [if_pos (le_refl (0 : Int))]
        dsimp only
        rw [if_neg (by simp), if_pos (le_refl (0 : Int))]
      rw [hv]
      rfl
    · have hv : validate t = .error (.MalformedTorrent "does not fit in usize.") := by
        unfold validate i64ToUsize usizeCheckedMul
        rw [if_pos h0]
        dsimp only
        rw [if_pos hlt]
        dsimp only
        rw [if_neg hneg]
      rw [hv]
      rfl
  · intro hlt hpos hge
    have hnn : (0 : Int) ≤ t.length := le_of_lt hpos
    have hnlt : ¬ (t.pieceLength.toNat * t.pieces.length < t.length.toNat) :=
      Nat.not_lt.mpr hge
    have hnle : ¬ (t.length ≤ 0) := not_le.mpr hpos
    unfold validate i64ToUsize usizeCheckedMul
    rw [if_pos h0]
    dsimp only
    rw [if_pos hlt]
    dsimp only
    rw [if_pos hnn]
    dsimp only
    rw [if_neg hnlt, if_neg hnle]

theorem claim_C3_witness :
    (0 < sampleTorrent.pieceLength) ∧
    (sampleTorrent.pieceLength.toNat * sampleTorrent.pieces.length < 2 ^ 64) ∧
    (0 < sampleTorrent.length) ∧
    (sampleTorrent.length.toNat ≤
      sampleTorrent.pieceLength.toNat * sampleTorrent.pieces.length) ∧
    validate sampleTorrent = .ok sampleTorrent :=
  ⟨by decide, by decide, by decide, by decide,
    (claim_C3 sampleTorrent (by decide)).2.2.2 (by decide) (by decide) (by decide)⟩

/-- C4: when reading, an absent `length` with `files` present makes the
torrent's length the checked sum of the file lengths (signed 64-bit overflow
of any partial sum is a `MalformedTorrent` error); `length` and `files` both
present is a `MalformedTorrent` error; neither present is a
`MalformedTorrent` error; `length` present alone as an integer becomes the
torrent's length. -/
theorem claim_C4 (d : Dict) :
    (∀ fs : List File, ∀ s : Int,
      dictLookup "length" d = none → sumFileLengths 0 fs = .ok s →
      extractLength d (some fs) = .ok (s, dictErase "length" d) ∧
        s = (fs.map File.length).sum) ∧
    (∀ fs : List File, dictLookup "length" d = none →
      isMalformedT (sumFileLengths 0 fs) = true →
      isMalformedT (extractLength d (some fs)) = true) ∧
    (∀ (acc : Int) (f : File) (rest : List File), i64CheckedAdd acc f.length = none →
      sumFileLengths acc (f :: rest) =
        .error (.MalformedTorrent "Torrent length overflowed in i64.")) ∧
    (∀ n : Int, ∀ fs : List File, dictLookup "length" d = some (.integer n) →
      extractLength d (some fs) =
        .error (.MalformedTorrent "Both length and files exist.")) ∧
    (dictLookup "length" d = none →
      extractLength d none =
        .error (.MalformedTorrent "Neither length nor files exists.")) ∧
    (∀ n : Int, dictLookup "length" d = some (.integer n) →
      extractLength d none = .ok (n, dictErase "length" d)) := by
  refine ⟨?_, ?_, ?_, ?_, ?_, ?_⟩
  · intro fs s h1 h2
    constructor
    · simp [extractLength, h1, h2, Except.map]
    · have := sumFileLengths_ok_value fs 0 s h2
      simpa using this
  · intro fs h1 h2
    cases hs : sumFileLengths 0 fs with
    | error err =>
        rw [hs] at h2
        cases err with
        | MalformedTorrent r => simp [extractLength, h1, hs, Except.map, isMalformedT]
        | MalformedBencode r => exact Bool.noConfusion h2
        | InvalidArgument r => exact Bool.noConfusion h2
    | ok s =>
        rw [hs] at h2
        exact Bool.noConfusion h2
  · intro acc f rest h
    simp [sumFileLengths, h]
  · intro n fs h
    simp [extractLength, h]
  · intro h
    simp [extractLength, h]
  · intro n h
    simp [extractLength, h]

theorem claim_C4_witness :
    dictLookup "length" [("length", BencodeElem.integer 42)] = some (.integer 42) ∧
    extractLength [("length", BencodeElem.integer 42)] none =
      .ok (42, dictErase "length" [("length", BencodeElem.integer 42)]) :=
  ⟨rfl, (claim_C4 _).2.2.2.2.2 42 rfl⟩

theorem isMalformedT_error_elim {α : Type} (r : Except Err α) (h : isMalformedT r = true) :
    ∃ reason, r = .error (.MalformedTorrent reason) := by
  cases r with
  | ok x => exact Bool.noConfusion h
  | error e =>
      cases e with
      | MalformedTorrent reason => exact ⟨reason, rfl⟩
      | MalformedBencode reason => exact Bool.noConfusion h
      | InvalidArgument reason => exact Bool.noConfusion h

theorem extractAnnounce_ok_dict (d : Dict) (a : Option String) (d1 : Dict)
    (h : extractAnnounce d = .ok (a, d1)) : d1 = dictErase "announce" d := by
  unfold extractAnnounce at h
  split at h
  · injection h with h2
    exact (congrArg Prod.snd h2).symm
  · exact Except.noConfusion h
  · injection h with h2
    exact (congrArg Prod.snd h2).symm

theorem extractAnnounceList_ok_dict (d : Dict) (al : Option (List (List String))) (d1 : Dict)
    (h : extractAnnounceList d = .ok (al, d1)) : d1 = dictErase "announce-list" d := by
  unfold extractAnnounceList at h
  split at h
  · rename_i tiers _
    cases ht : announceTiers tiers with
    | error e => rw [ht] at h; exact Except.noConfusion h
    | ok l =>
        rw [ht] at h
        simp only [Except.map] at h
        injection h with h2
        exact (congrArg Prod.snd h2).symm
  · exact Except.noConfusion h
  · injection h with h2
    exact (congrArg Prod.snd h2).symm

theorem extractFiles_ok_dict (d : Dict) (fs : Option (List File)) (d1 : Dict)
    (h : extractFiles d = .ok (fs, d1)) : d1 = dictErase "files" d := by
  unfold extractFiles at h
  split at h
  · rename_i l _
    split at h
    · exact Except.noConfusion h
    · cases hl : extractFilesLoop l with
      | error e => rw [hl] at h; exact Except.noConfusion h
      | ok files =>
          rw [hl] at h
          simp only [Except.map] at h
          injection h with h2
          exact (congrArg Prod.snd h2).symm
  · exact Except.noConfusion h
  · injection h with h2
    exact (congrArg Prod.snd h2).symm

theorem extractLength_ok_dict (d : Dict) (files : Option (List File)) (n : Int) (d1 : Dict)
    (h : extractLength d files = .ok (n, d1)) : d1 = dictErase "length" d := by
  unfold extractLength at h
  split at h
  · split at h
    · exact Except.noConfusion h
    · injection h with h2
      exact (congrArg Prod.snd h2).symm
  · exact Except.noConfusion h
  · split at h
    · rename_i fs
      cases hs : sumFileLengths 0 fs with
      | error e => rw [hs] at h; exact Except.noConfusion h
      | ok s =>
          rw [hs] at h
          simp only [Except.map] at h
          injection h with h2
          exact (congrArg Prod.snd h2).symm
    · exact Except.noConfusion h

theorem extractName_ok_dict (d : Dict) (nm : String) (d1 : Dict)
    (h : extractName d = .ok (nm, d1)) : d1 = dictErase "name" d := by
  unfold extractName at h
  split at h
  · injection h with h2
    exact (congrArg Prod.snd h2).symm
  · exact Except.noConfusion h
  · exact Except.noConfusion h

theorem extractPieceLength_ok_dict (d : Dict) (n : Int) (d1 : Dict)
    (h : extractPieceLength d = .ok (n, d1)) : d1 = dictErase "piece length" d := by
  unfold extractPieceLength at h
  split at h
  · split at h
    · injection h with h2
      exact (congrArg Prod.snd h2).symm
    · exact Except.noConfusion h
  · exact Except.noConfusion h
  · exact Except.noConfusion h

theorem extractPieces_ok_dict (d : Dict) (ps : List (List Nat)) (d1 : Dict)
    (h : extractPieces d = .ok (ps, d1)) : d1 = dictErase "pieces" d := by
  unfold extractPieces at h
  split at h
  · split at h
    · exact Except.noConfusion h
    · split at h
      · injection h with h2
        exact (congrArg Prod.snd h2).symm
      · exact Except.noConfusion h
  · exact Except.noConfusion h
  · exact Except.noConfusion h

theorem extractExtraFields_getD (d : Dict) : (extractExtraFields d).getD [] = d := by
  cases d with
  | nil => rfl
  | cons p rest => rfl

theorem extractExtraFields_eq_none (d : Dict) : extractExtraFields d = none ↔ d = [] := by
  cases d with
  | nil => simp [extractExtraFields]
  | cons p rest => simp [extractExtraFields]

theorem fromParsedDict_extra (d : Dict) (t : Torrent) (h : fromParsedDict d = .ok t) :
    t.extraFields =
      extractExtraFields
        (dictErase "info" (dictErase "announce-list" (dictErase "announce" d))) ∧
    ∃ info,
      dictLookup "info" (dictErase "announce-list" (dictErase "announce" d)) =
        some (.dictionary info) ∧
      t.extraInfoFields =
        extractExtraFields (dictErase "pieces" (dictErase "piece length" (dictErase "name"
          (dictErase "length" (dictErase "files" info))))) := by
  unfold fromParsedDict at h
  cases ha : extractAnnounce d with
  | error e => rw [ha] at h; exact Except.noConfusion h
  | ok pa =>
  obtain ⟨a, d1⟩ := pa
  have hd1 : d1 = dictErase "announce" d := extractAnnounce_ok_dict d a d1 ha
  simp only [ha] at h
  cases hal : extractAnnounceList d1 with
  | error e => rw [hal] at h; exact Except.noConfusion h
  | ok pal =>
  obtain ⟨al, d2⟩ := pal
  have hd2 : d2 = dictErase "announce-list" d1 := extractAnnounceList_ok_dict d1 al d2 hal
  simp only [hal] at h
  cases hi : dictLookup "info" d2 with
  | none => simp only [hi] at h; exact Except.noConfusion h
  | some v =>
  cases v with
  | integer n => simp only [hi] at h; exact Except.noConfusion h
  | string s => simp only [hi] at h; exact Except.noConfusion h
  | bytes b => simp only [hi] at h; exact Except.noConfusion h
  | list es => simp only [hi] at h; exact Except.noConfusion h
  | dictionary info =>
  simp only [hi] at h
  cases hf : extractFiles info with
  | error e => rw [hf] at h; exact Except.noConfusion h
  | ok pf =>
  obtain ⟨files, i1⟩ := pf
  have hi1 : i1 = dictErase "files" info := extractFiles_ok_dict info files i1 hf
  simp only [hf] at h
  cases hlen : extractLength i1 files with
  | error e => rw [hlen] at h; exact Except.noConfusion h
  | ok plen =>
  obtain ⟨len, i2⟩ := plen
  have hi2 : i2 = dictErase "length" i1 := extractLength_ok_dict i1 files len i2 hlen
  simp only [hlen] at h
  cases hnm : extractName i2 with
  | error e => rw [hnm] at h; exact Except.noConfusion h
  | ok pnm =>
  obtain ⟨nm, i3⟩ := pnm
  have hi3 : i3 = dictErase "name" i2 := extractName_ok_dict i2 nm i3 hnm
  simp only [hnm] at h
  cases hpl : extractPieceLength i3 with
  | error e => rw [hpl] at h; exact Except.noConfusion h
  | ok ppl =>
  obtain ⟨pl, i4⟩ := ppl
  have hi4 : i4 = dictErase "piece length" i3 := extractPieceLength_ok_dict i3 pl i4 hpl
  simp only [hpl] at h
  cases hps : extractPieces i4 with
  | error e => rw [hps] at h; exact Except.noConfusion h
  | ok pps =>
  obtain ⟨ps, i5⟩ := pps
  have hi5 : i5 = dictErase "pieces" i4 := extractPieces_ok_dict i4 ps i5 hps
  simp only [hps] at h
  injection h with h2
  subst h2
  refine ⟨by rw [hd2, hd1], ⟨info, ?_, ?_⟩⟩
  · rw [← hd1, ← hd2]
    exact hi
  · rw [hi5, hi4, hi3, hi2, hi1]

/-- C6: for every successfully read torrent, each top-level key other than
`announce`, `announce-list` and `info` is preserved with its value in
`extra_fields`, each info key other than `name`, `piece length`, `pieces`,
`length` and `files` is preserved with its value in `extra_info_fields`, and
each of the two mappings is absent exactly when it would otherwise be
empty. -/
theorem claim_C6 (d : Dict) (t : Torrent) (h : fromParsed [.dictionary d] = .ok t) :
    (∀ k, k ≠ "announce" → k ≠ "announce-list" → k ≠ "info" →
      dictLookup k (t.extraFields.getD []) = dictLookup k d) ∧
    (t.extraFields = none ↔
      dictErase "info" (dictErase "announce-list" (dictErase "announce" d)) = []) ∧
    (∀ info, dictLookup "info" d = some (.dictionary info) →
      (∀ k, k ≠ "name" → k ≠ "piece length" → k ≠ "pieces" → k ≠ "length" → k ≠ "files" →
        dictLookup k (t.extraInfoFields.getD []) = dictLookup k info) ∧
      (t.extraInfoFields = none ↔
        dictErase "pieces" (dictErase "piece length" (dictErase "name"
          (dictErase "length" (dictErase "files" info)))) = [])) := by
  have hpd : fromParsedDict d = .ok t := h
  obtain ⟨hef, info0, hinfo0, heif⟩ := fromParsedDict_extra d t hpd
  have hinfo0d : dictLookup "info" d = some (.dictionary info0) := by
    rw [dictLookup_erase_ne _ _ _ (by decide), dictLookup_erase_ne _ _ _ (by decide)] at hinfo0
    exact hinfo0
  refine ⟨?_, ?_, ?_⟩
  · intro k hk1 hk2 hk3
    rw [hef, extractExtraFields_getD,
      dictLookup_erase_ne _ _ _ (fun hx => hk3 hx.symm),
      dictLookup_erase_ne _ _ _ (fun hx => hk2 hx.symm),
      dictLookup_erase_ne _ _ _ (fun hx => hk1 hx.symm)]
  · rw [hef]
    exact extractExtraFields_eq_none _
  · intro info hinfo
    have heq : info = info0 := by
      rw [hinfo0d] at hinfo
      exact (BencodeElem.dictionary.inj (Option.some.inj hinfo)).symm
    subst heq
    constructor
    · intro k hk1 hk2 hk3 hk4 hk5
      rw [heif, extractExtraFields_getD,
        dictLookup_erase_ne _ _ _ (fun hx => hk3 hx.symm),
        dictLookup_erase_ne _ _ _ (fun hx => hk2 hx.symm),
        dictLookup_erase_ne _ _ _ (fun hx => hk1 hx.symm),
        dictLookup_erase_ne _ _ _ (fun hx => hk4 hx.symm),
        dictLookup_erase_ne _ _ _ (fun hx => hk5 hx.symm)]
    · rw [heif]
      exact extractExtraFields_eq_none _

theorem claim_C6_witness :
    fromParsed [.dictionary [("comment", BencodeElem.string "c"),
      ("info", .dictionary [("name", .string "n"), ("length", .integer 1),
        ("piece length", .integer 1),
        ("pieces", .bytes [0, 1, 2, 3, 4, 5, 6, 7, 8, 9,
          10, 11, 12, 13, 14, 15, 16, 17, 18, 19]),
        ("private", .integer 1)])]] =
      .ok { announce := none, announceList := none, length := 1, files := none,
            name := "n", pieceLength := 1,
            pieces := [[0, 1, 2, 3, 4, 5, 6, 7, 8, 9,
              10, 11, 12, 13, 14, 15, 16, 17, 18, 19]],
            extraFields := some [("comment", BencodeElem.string "c")],
            extraInfoFields := some [("private", BencodeElem.integer 1)] } ∧
    dictLookup "comment" ((some [("comment", BencodeElem.string "c")] : Option Dict).getD []) =
      some (BencodeElem.string "c") := by
  have hok : fromParsed [.dictionary [("comment", BencodeElem.string "c"),
      ("info", .dictionary [("name", .string "n"), ("length", .integer 1),
        ("piece length", .integer 1),
        ("pieces", .bytes [0, 1, 2, 3, 4, 5, 6, 7, 8, 9,
          10, 11, 12, 13, 14, 15, 16, 17, 18, 19]),
        ("private", .integer 1)])]] =
      .ok { announce := none, announceList := none, length := 1, files := none,
            name := "n", pieceLength := 1,
            pieces := [[0, 1, 2, 3, 4, 5, 6, 7, 8, 9,
              10, 11, 12, 13, 14, 15, 16, 17, 18, 19]],
            extraFields := some [("comment", BencodeElem.string "c")],
            extraInfoFields := some [("private", BencodeElem.integer 1)] } := rfl
  exact ⟨hok, (claim_C6 _ _ hok).1 "comment" (by decide) (by decide) (by decide)⟩

/-- C5: the reader enforces the required schema with `MalformedTorrent`
errors: the single top-level element must be a dictionary holding an `info`
dictionary; `name` must be text; `piece length` an integer above zero;
`pieces` a non-empty byte sequence whose length is a multiple of 20, split
on success into consecutive 20-byte pieces in order; `files`, when present,
a non-empty list of dictionaries, each with an integer `length` at least
zero and a `path` that is a non-empty list of text components none equal to
the dot or dot-dot component, joined in order. -/
theorem claim_C5 (d : Dict) :
    (∀ e : BencodeElem, (∀ d2, e ≠ .dictionary d2) →
      isMalformedT (fromParsed [e]) = true) ∧
    (∀ es : List BencodeElem, es.length ≠ 1 → isMalformedT (fromParsed es) = true) ∧
    (∀ a d1 al d2, extractAnnounce d = .ok (a, d1) → extractAnnounceList d1 = .ok (al, d2) →
      dictLookup "info" d2 = none → isMalformedT (fromParsedDict d) = true) ∧
    (∀ a d1 al d2 v, extractAnnounce d = .ok (a, d1) → extractAnnounceList d1 = .ok (al, d2) →
      dictLookup "info" d2 = some v → (∀ i, v ≠ .dictionary i) →
      isMalformedT (fromParsedDict d) = true) ∧
    (∀ s, dictLookup "name" d = some (.string s) →
      extractName d = .ok (s, dictErase "name" d)) ∧
    (∀ v, dictLookup "name" d = some v → (∀ s, v ≠ .string s) →
      isMalformedT (extractName d) = true) ∧
    (dictLookup "name" d = none → isMalformedT (extractName d) = true) ∧
    (∀ n : Int, dictLookup "piece length" d = some (.integer n) → 0 < n →
      extractPieceLength d = .ok (n, dictErase "piece length" d)) ∧
    (∀ n : Int, dictLookup "piece length" d = some (.integer n) → n ≤ 0 →
      isMalformedT (extractPieceLength d) = true) ∧
    (∀ v, dictLookup "piece length" d = some v → (∀ n : Int, v ≠ .integer n) →
      isMalformedT (extractPieceLength d) = true) ∧
    (dictLookup "piece length" d = none → isMalformedT (extractPieceLength d) = true) ∧
    (∀ b, dictLookup "pieces" d = some (.bytes b) → b ≠ [] → b.length % 20 = 0 →
      extractPieces d = .ok (chunksOf 20 b, dictErase "pieces" d) ∧
      (chunksOf 20 b).flatten = b ∧ (∀ p ∈ chunksOf 20 b, p.length = 20)) ∧
    (∀ b, dictLookup "pieces" d = some (.bytes b) → (b = [] ∨ b.length % 20 ≠ 0) →
      isMalformedT (extractPieces d) = true) ∧
    (∀ v, dictLookup "pieces" d = some v → (∀ b, v ≠ .bytes b) →
      isMalformedT (extractPieces d) = true) ∧
    (dictLookup "pieces" d = none → isMalformedT (extractPieces d) = true) ∧
    (dictLookup "files" d = some (.list []) → isMalformedT (extractFiles d) = true) ∧
    (∀ v, dictLookup "files" d = some v → (∀ l, v ≠ .list l) →
      isMalformedT (extractFiles d) = true) ∧
    (dictLookup "files" d = none → extractFiles d = .ok (none, dictErase "files" d)) ∧
    (∀ e, (∀ fd, e ≠ .dictionary fd) → isMalformedT (extractFile e) = true) ∧
    (∀ fd (len : Int) (comps : List String),
      dictLookup "length" fd = some (.integer len) → 0 ≤ len →
      dictLookup "path" (dictErase "length" fd) = some (.list (comps.map BencodeElem.string)) →
      comps ≠ [] → (∀ c ∈ comps, c ≠ "." ∧ c ≠ "..") →
      extractFile (.dictionary fd) =
        .ok ⟨len, comps, extractExtraFields (dictErase "path" (dictErase "length" fd))⟩) ∧
    (∀ fd (len : Int), dictLookup "length" fd = some (.integer len) → len < 0 →
      isMalformedT (extractFile (.dictionary fd)) = true) ∧
    (∀ fd v, dictLookup "length" fd = some v → (∀ n : Int, v ≠ .integer n) →
      isMalformedT (extractFile (.dictionary fd)) = true) ∧
    (∀ fd, dictLookup "length" fd = none →
      isMalformedT (extractFile (.dictionary fd)) = true) ∧
    (∀ fd (len : Int) l,
      dictLookup "length" fd = some (.integer len) → 0 ≤ len →
      dictLookup "path" (dictErase "length" fd) = some (.list l) →
      (l = [] ∨ ∃ e ∈ l, (∀ s, e ≠ .string s) ∨ e = .string "." ∨ e = .string "..") →
      isMalformedT (extractFile (.dictionary fd)) = true) ∧
    (∀ e rest f, extractFile e = .ok f →
      extractFilesLoop (e :: rest) = (extractFilesLoop rest).map (fun fs => f :: fs)) ∧
    (∀ e rest, isMalformedT (extractFile e) = true →
      isMalformedT (extractFilesLoop (e :: rest)) = true) := by
  refine ⟨?_, ?_, ?_, ?_, ?_, ?_, ?_, ?_, ?_, ?_, ?_, ?_, ?_,
    ?_, ?_, ?_, ?_, ?_, ?_, ?_, ?_, ?_, ?_, ?_, ?_, ?_⟩
  · intro e hne
    cases e with
    | dictionary d2 => exact absurd rfl (hne d2)
    | integer n => rfl
    | string s => rfl
    | bytes b => rfl
    | list es => rfl
  · intro es hlen
    cases es with
    | nil => rfl
    | cons x rest =>
        cases rest with
        | nil => exact absurd rfl hlen
        | cons y r2 => rfl
  · intro a d1 al d2 ha hal hi
    unfold fromParsedDict
    simp only [ha, hal, hi]
    rfl
  · intro a d1 al d2 v ha hal hi hnd
    cases v with
    | dictionary i => exact absurd rfl (hnd i)
    | integer n => unfold fromParsedDict; simp only [ha, hal, hi]; rfl
    | string s => unfold fromParsedDict; simp only [ha, hal, hi]; rfl
    | bytes b => unfold fromParsedDict; simp only [ha, hal, hi]; rfl
    | list es => unfold fromParsedDict; simp only [ha, hal, hi]; rfl
  · intro s h
    simp only [extractName, h]
  · intro v h hns
    cases v with
    | string s => exact absurd rfl (hns s)
    | integer n => simp only [extractName, h]; rfl
    | bytes b => simp only [extractName, h]; rfl
    | list es => simp only [extractName, h]; rfl
    | dictionary d2 => simp only [extractName, h]; rfl
  · intro h
    simp only [extractName, h]
    rfl
  · intro n h hpos
    simp only [extractPieceLength, h]
    rw [if_pos hpos]
  · intro n h hle
    simp only [extractPieceLength, h]
    rw [if_neg (not_lt.mpr hle)]
    rfl
  · intro v h hni
    cases v with
    | integer n => exact absurd rfl (hni n)
    | string s => simp only [extractPieceLength, h]; rfl
    | bytes b => simp only [extractPieceLength, h]; rfl
    | list es => simp only [extractPieceLength, h]; rfl
    | dictionary d2 => simp only [extractPieceLength, h]; rfl
  · intro h
    simp only [extractPieceLength, h]
    rfl
  · intro b h hne hmod
    have hemp : b.isEmpty = false := by
      cases b with
      | nil => exact absurd rfl hne
      | cons x rest => rfl
    refine ⟨?_, chunksOf_flatten 20 b, fun p hp => chunksOf_length_20 b hmod p hp⟩
    simp only [extractPieces, h, hemp]
    rw [if_neg (by simp), if_pos hmod]
  · intro b h hbad
    rcases hbad with rfl | hm
    · simp only [extractPieces, h]
      rfl
    · have hne : b ≠ [] := by
        rintro rfl
        simp at hm
      have hemp : b.isEmpty = false := by
        cases b with
        | nil => exact absurd rfl hne
        | cons x rest => rfl
      simp only [extractPieces, h, hemp]
      rw [if_neg (by simp), if_neg hm]
      rfl
  · intro v h hnb
    cases v with
    | bytes b => exact absurd rfl (hnb b)
    | integer n => simp only [extractPieces, h]; rfl
    | string s => simp only [extractPieces, h]; rfl
    | list es => simp only [extractPieces, h]; rfl
    | dictionary d2 => simp only [extractPieces, h]; rfl
  · intro h
    simp only [extractPieces, h]
    rfl
  · intro h
    simp only [extractFiles, h]
    rfl
  · intro v h hnl
    cases v with
    | list l => exact absurd rfl (hnl l)
    | integer n => simp only [extractFiles, h]; rfl
    | string s => simp only [extractFiles, h]; rfl
    | bytes b => simp only [extractFiles, h]; rfl
    | dictionary d2 => simp only [extractFiles, h]; rfl
  · intro h
    simp only [extractFiles, h]
  · intro e hnd
    cases e with
    | dictionary fd => exact absurd rfl (hnd fd)
    | integer n => rfl
    | string s => rfl
    | bytes b => rfl
    | list es => rfl
  · intro fd len comps hlen hge hpath hne hcomps
    have h1 : extractFileLength fd = .ok (len, dictErase "length" fd) := by
      simp only [extractFileLength, hlen]
      rw [if_pos hge]
    have hemp : (comps.map BencodeElem.string).isEmpty = false := by
      cases comps with
      | nil => exact absurd rfl hne
      | cons c rest => rfl
    have h2 : extractFilePath (dictErase "length" fd) =
        .ok (comps, dictErase "path" (dictErase "length" fd)) := by
      simp only [extractFilePath, hpath, hemp]
      rw [if_neg (by simp), buildPath_ok comps [] hcomps]
      simp [Except.map]
    simp only [extractFile, h1, h2]
  · intro fd len hlen hlt
    have h1 : extractFileLength fd = .error (.MalformedTorrent "length < 0.") := by
      simp only [extractFileLength, hlen]
      rw [if_neg (not_le.mpr hlt)]
    simp only [extractFile, h1]
    rfl
  · intro fd v hlen hni
    cases v with
    | integer n => exact absurd rfl (hni n)
    | string s =>
        simp only [extractFile, extractFileLength, hlen]
        rfl
    | bytes b =>
        simp only [extractFile, extractFileLength, hlen]
        rfl
    | list es =>
        simp only [extractFile, extractFileLength, hlen]
        rfl
    | dictionary d2 =>
        simp only [extractFile, extractFileLength, hlen]
        rfl
  · intro fd hlen
    simp only [extractFile, extractFileLength, hlen]
    rfl
  · intro fd len l hlen hge hpath hviol
    have h1 : extractFileLength fd = .ok (len, dictErase "length" fd) := by
      simp only [extractFileLength, hlen]
      rw [if_pos hge]
    have h2 : isMalformedT (extractFilePath (dictErase "length" fd)) = true := by
      rcases hviol with rfl | ⟨e, he, hbad⟩
      · simp only [extractFilePath, hpath]
        rfl
      · have hne : l ≠ [] := by
          rintro rfl
          simp at he
        have hemp : l.isEmpty = false := by
          cases l with
          | nil => exact absurd rfl hne
          | cons x rest => rfl
        have hbp := buildPath_bad l [] ⟨e, he, hbad⟩
        obtain ⟨r, hr⟩ := isMalformedT_error_elim _ hbp
        simp only [extractFilePath, hpath, hemp]
        rw [if_neg (by simp), hr]
        rfl
    obtain ⟨r2, hr2⟩ := isMalformedT_error_elim _ h2
    simp only [extractFile, h1, hr2]
    rfl
  · intro e rest f h
    exact extractFilesLoop_cons_ok e rest f h
  · intro e rest h
    exact extractFilesLoop_cons_err e rest h

theorem claim_C5_witness :
    dictLookup "name" [("name", BencodeElem.string "n")] = some (.string "n") ∧
    extractName [("name", BencodeElem.string "n")] =
      .ok ("n", dictErase "name" [("name", BencodeElem.string "n")]) :=
  ⟨rfl, (claim_C5 _).2.2.2.2.1 "n" rfl⟩

example : sha1 (utf8Bytes "abc") =
    [0xa9, 0x99, 0x3e, 0x36, 0x47, 0x06, 0x81, 0x6a, 0xba, 0x3e,
      0x25, 0x71, 0x78, 0x50, 0xc2, 0x6c, 0x9c, 0xd0, 0xd8, 0x9d] := by decide

example : infoHash sampleTorrent = "074f42efaf8267f137f114f722d4e7d1dcbfbda5" := by decide

example :
    magnetLink { sampleTorrent with
        announce := some "https://example.org/path?a=1&b=hello world" } =
      .ok ("magnet:?xt=urn:btih:074f42efaf8267f137f114f722d4e7d1dcbfbda5" ++
        "&dn=sample&tr=https://example.org/path?a=1%26b=hello+world") := rfl
